import Mathlib

/-!
Verification of the Number_150 repository: a genetic algorithm that evolves a
population of integers towards a target number.  The repository has three
Python files; the algorithmic core is utilities.py (bit conversions and the
value-to-pixel scaling) and number_evolver.py (the NumberEvolver class whose
background loop repeatedly rebuilds the population).  The definitions below
are a shallow embedding of that code: Python ints become Nat or Int, the
float infinity sentinel for the best estimate becomes Option Nat (none is the
sentinel), the random draws of a generation become explicit oracle data, and
the float arithmetic of calc_level becomes exact rational arithmetic.
-/

/-! ## utilities.py -/

/-- Embeds bin_to_dec from utilities.py.  The Python code reduces the list
with lambda prev, curr: (prev[0] + 1, prev[1] + (curr << prev[0])) starting
from (0, 0) and keeps the second component, so the element at index i
contributes curr * 2 ^ i (the first list element is the least significant
position). -/
def bin_to_dec (n : List ℕ) : ℕ :=
  (n.foldl (fun prev curr => (prev.1 + 1, prev.2 + (curr <<< prev.1))) ((0, 0) : ℕ × ℕ)).2

/-- Little-endian binary digits of n, with an explicit fuel argument so that
the recursion is structural and kernel-reducible.  Called with fuel = n it
computes the digit list of n (empty for n = 0); it mirrors the digit
sequence that the Python builtin bin produces, read in reverse. -/
def binDigitsRevFuel : ℕ → ℕ → List ℕ
  | 0, _ => []
  | fuel + 1, n => if n = 0 then [] else n % 2 :: binDigitsRevFuel fuel (n / 2)

/-- Embeds the Python digit string bin(n) with the 0b marker removed: the big-endian
digit string of n, which is the single digit 0 when n = 0. -/
def pyBin (n : ℕ) : List ℕ :=
  if n = 0 then [0] else (binDigitsRevFuel n n).reverse

/-- Embeds dec_to_bin from utilities.py.  The Python code takes the digit
string of bin(n) and ljust-pads it with the character 0 on the RIGHT up to
the requested number of places, then maps the characters back to ints. -/
def dec_to_bin (n : ℕ) (places : ℕ) : List ℕ :=
  pyBin n ++ List.replicate (places - (pyBin n).length) 0

/-- Embeds calc_level from utilities.py over exact rationals:
((max_num - n) / max_num) * (draw_range.2 - draw_range.1) + draw_range.1. -/
def calc_level (n : ℚ) (max_num : ℚ) (draw_range : ℚ × ℚ) : ℚ :=
  (max_num - n) / max_num * (draw_range.2 - draw_range.1) + draw_range.1

/-- Embeds math.floor(math.log(n, 2)) for n at least 1, again with fuel so
that evaluation is structural. -/
def log2floorFuel : ℕ → ℕ → ℕ
  | 0, _ => 0
  | fuel + 1, n => if n < 2 then 0 else log2floorFuel fuel (n / 2) + 1

/-- Floor of the base two logarithm, as used for max_bits in the evolver. -/
def pyLog2 (n : ℕ) : ℕ := log2floorFuel n n

/-! ## number_evolver.py: data model -/

/-- Embeds the frozen dataclass EvolutionIteration: one generation record of
the history log. The best number can still be the infinity sentinel, which
the embedding renders as none. -/
structure EvolutionIteration where
  iteration : ℕ
  population : List ℕ
  best_number : Option ℕ
deriving DecidableEq, Repr

/-- Clamped construction parameters stored on a NumberEvolver instance:
desired_number, population_size, max_bits and cross_range (the latter is
kept as an integer because the Python code never clamps it from below). -/
structure Params where
  desired_number : ℕ
  population_size : ℕ
  max_bits : ℕ
  cross_range : ℤ
deriving DecidableEq, Repr

/-- Mutable evolver state: current population, current best estimate
(none is the math.inf sentinel set in the constructor), iteration counter
and the append-only history log. -/
structure EvState where
  population : List ℕ
  best : Option ℕ
  iteration : ℕ
  history : List EvolutionIteration
deriving DecidableEq, Repr

/-- Random data consumed by one pass of the mating loop body: the population
order produced by random.shuffle, the crossover point drawn by
random.randint(0, max_bits // 2 - 1) and the mutated bit position drawn by
random.randint(0, max_bits - 1). -/
structure Mating where
  shuffled : List ℕ
  cross : ℕ
  mutation_id : ℕ
deriving DecidableEq, Repr

/-- Absolute difference of two population values, as Python abs(x - y). -/
def absDiff (a b : ℕ) : ℕ := ((a : ℤ) - (b : ℤ)).natAbs

namespace NumberEvolver

/-- Distance abs(desired - best) from the target to the best estimate, with
the math.inf sentinel mapped to the top element. -/
def best_distance (desired : ℕ) (best : Option ℕ) : WithTop ℕ :=
  match best with
  | none => ⊤
  | some b => (absDiff desired b : WithTop ℕ)

/-- Boolean test best_diff <= num_diff of the rescan loop: the comparison of
the float infinity sentinel with a finite int is always false in Python. -/
def leBestDiff (desired : ℕ) (best : Option ℕ) (num_diff : ℕ) : Bool :=
  match best with
  | none => false
  | some b => absDiff desired b ≤ num_diff

/-- One pass of the loop body for num in self.population of the best-match
rescan: self.best = self.best if best_diff <= num_diff else num. -/
def rescanStep (desired : ℕ) (best : Option ℕ) (num : ℕ) : Option ℕ :=
  if leBestDiff desired best (absDiff desired num) then best else some num

/-- The whole best-match rescan loop over the new population. -/
def rescan (desired : ℕ) (best : Option ℕ) (pop : List ℕ) : Option ℕ :=
  pop.foldl (rescanStep desired) best

/-- Boolean comparison abs(x - best) <= abs(y - best) of the sort key
lambda x: abs(x - self.best); with the infinity sentinel all keys are the
float infinity, so any two keys compare as equal. -/
def leDistToBest (best : Option ℕ) (x y : ℕ) : Bool :=
  match best with
  | none => true
  | some b => absDiff x b ≤ absDiff y b

/-- Strict comparison abs(x - best) < abs(y - best); false on the sentinel
because two float infinities are never strictly ordered. -/
def ltDistToBest (best : Option ℕ) (x y : ℕ) : Bool :=
  match best with
  | none => false
  | some b => absDiff x b < absDiff y b

/-- Stable insertion of one element into a list that is already ordered by
the boolean key comparison le. -/
def insertLe (le : ℕ → ℕ → Bool) (x : ℕ) : List ℕ → List ℕ
  | [] => [x]
  | y :: t => if le x y then x :: y :: t else y :: insertLe le x t

/-- Stable sort implementing Python sorted for a total boolean preorder. -/
def sortLe (le : ℕ → ℕ → Bool) : List ℕ → List ℕ
  | [] => []
  | x :: t => insertLe le x (sortLe le t)

/-- Embeds sorted(self.population, key=lambda x: abs(x - self.best)). -/
def sortPop (best : Option ℕ) (pop : List ℕ) : List ℕ :=
  sortLe (leDistToBest best) pop

/-- Embeds the truncation selection
self.population[:max(self.population_size // 4, 2)] applied right after the
sort at the top of a generation. -/
def truncPool (p : Params) (s : EvState) : List ℕ :=
  (sortPop s.best s.population).take (max (p.population_size / 4) 2)

/-- Embeds the crossover loop
for j in range(cross_range): male[cross+j], female[cross+j] = female[cross+j], male[cross+j]
by recursion on the number of loop passes still to run. -/
def crossSwap (male female : List ℕ) (cross : ℕ) : ℕ → List ℕ × List ℕ
  | 0 => (male, female)
  | j + 1 =>
    let p := crossSwap male female cross j
    (p.1.set (cross + j) (p.2.getD (cross + j) 0),
      p.2.set (cross + j) (p.1.getD (cross + j) 0))

/-- Embeds the bit flip bits[mutation_id] = 1 - bits[mutation_id]. -/
def mutate (bits : List ℕ) (mutation_id : ℕ) : List ℕ :=
  bits.set mutation_id (1 - bits.getD mutation_id 0)

/-- Embeds sorted([bin_to_dec(male), bin_to_dec(female)], key=...)[0]: the
stable two-element sort keeps the male first unless the female is strictly
closer to the best estimate. -/
def childSel (best : Option ℕ) (male female : ℕ) : ℕ :=
  if ltDistToBest best female male then female else male

/-- One pass of the mating loop for _ in range(self.population_size): draw
the two parents from positions 0 and 1 of the freshly shuffled pool, convert
both to bit lists, cross a block of cross_range bits, flip the drawn bit in
each, decode, and append the child that is closer to the best estimate. The
state is the current pool order paired with the new population built so far. -/
def mateStep (p : Params) (best : Option ℕ) (st : List ℕ × List ℕ) (m : Mating) :
    List ℕ × List ℕ :=
  let pool := m.shuffled
  let male := dec_to_bin (pool.getD 0 0) p.max_bits
  let female := dec_to_bin (pool.getD 1 0) p.max_bits
  let crossed := crossSwap male female m.cross p.cross_range.toNat
  let male2 := mutate crossed.1 m.mutation_id
  let female2 := mutate crossed.2 m.mutation_id
  let child := childSel best (bin_to_dec male2) (bin_to_dec female2)
  (pool, st.2 ++ [child])

/-- One body of the while loop of NumberEvolver.__evolve: bump the iteration
counter, sort the population by distance to the best estimate, truncate to
the breeding pool, run the mating loop population_size times (the oracle rs
lists the random data of each pass), rescan the new population for a better
best estimate, and append the generation record to the history. -/
def evolveStep (p : Params) (s : EvState) (rs : List Mating) : EvState :=
  let iter := s.iteration + 1
  let newPop := (rs.foldl (mateStep p s.best) (truncPool p s, [])).2
  let newBest := rescan p.desired_number s.best newPop
  { population := newPop
    best := newBest
    iteration := iter
    history := s.history ++ [⟨iter, newPop, newBest⟩] }

/-- Validity of the random data consumed by one generation, threading the
pool order: each shuffle permutes the pool it received, each crossover point
lies in the range of randint(0, max_bits // 2 - 1) and each mutated position
in the range of randint(0, max_bits - 1). -/
def validMatings (p : Params) : List ℕ → List Mating → Prop
  | _, [] => True
  | pool, m :: rest =>
    m.shuffled.Perm pool ∧ m.cross < p.max_bits / 2 ∧ m.mutation_id < p.max_bits ∧
      validMatings p m.shuffled rest

/-- Clamped parameters computed in NumberEvolver.__init__:
desired_number = min(max(0, desired_number), max_number),
population_size = max(population_size, 2),
max_bits = floor(log2(max_number)) + 1,
cross_range = min(max_bits // 2, cross_range). -/
def initParams (desired_number population_size max_number cross_range : ℤ) : Params :=
  let max_bits : ℕ := pyLog2 max_number.toNat + 1
  { desired_number := (min (max 0 desired_number) max_number).toNat
    population_size := (max population_size 2).toNat
    max_bits := max_bits
    cross_range := min ((max_bits : ℤ) / 2) cross_range }

/-- Embeds NumberEvolver.__init__.  With max_number below 1 the call
math.log(max_number, 2) raises ValueError, rendered here as none; otherwise
the clamped parameters and the initial state are built, with the starting
population drawn by the oracle rinit standing for
[random.randint(0, max_number) for _ in range(population_size)], the best
estimate at the math.inf sentinel, and an empty history. -/
def init (desired_number population_size max_number cross_range : ℤ)
    (rinit : ℕ → ℕ) : Option (Params × EvState) :=
  if max_number < 1 then none
  else
    some (initParams desired_number population_size max_number cross_range,
      { population := (List.range (max population_size 2).toNat).map rinit
        best := none
        iteration := 0
        history := [] })

/-- The guarded step relation of the while loop in __evolve: a successor
state exists only while the best estimate differs from the desired number,
and it is produced by one loop body run on some valid batch of random data
of length population_size. -/
def stepRel (p : Params) (s s2 : EvState) : Prop :=
  s.best ≠ some p.desired_number ∧
    ∃ rs : List Mating, validMatings p (truncPool p s) rs ∧
      rs.length = p.population_size ∧ s2 = evolveStep p s rs

end NumberEvolver

/-! ## Helper lemmas about the bit conversions -/

/-- Value of a digit list whose index-i digit weighs 2 ^ (k + i). -/
def bitsVal : ℕ → List ℕ → ℕ
  | _, [] => 0
  | k, b :: t => b * 2 ^ k + bitsVal (k + 1) t

theorem foldl_bin_eq (l : List ℕ) :
    ∀ k acc : ℕ,
      (l.foldl (fun prev curr => (prev.1 + 1, prev.2 + (curr <<< prev.1))) (k, acc)).2 =
        acc + bitsVal k l := by
  induction l with
  | nil => intro k acc; simp [bitsVal]
  | cons b t ih =>
    intro k acc
    simp only [List.foldl_cons]
    rw [ih (k + 1) (acc + (b <<< k))]
    simp only [bitsVal, Nat.shiftLeft_eq]
    omega

theorem bin_to_dec_eq_bitsVal (l : List ℕ) : bin_to_dec l = bitsVal 0 l := by
  simpa using foldl_bin_eq l 0 0

theorem bitsVal_bound (l : List ℕ) :
    ∀ k : ℕ, (∀ b ∈ l, b ≤ 1) → bitsVal k l + 2 ^ k ≤ 2 ^ (k + l.length) := by
  induction l with
  | nil => intro k _; simp [bitsVal]
  | cons b t ih =>
    intro k hb
    have hb1 : b ≤ 1 := hb b (List.mem_cons_self b t)
    have hbt : ∀ x ∈ t, x ≤ 1 := fun x hx => hb x (List.mem_cons_of_mem b hx)
    have hmul : b * 2 ^ k ≤ 2 ^ k := by
      calc b * 2 ^ k ≤ 1 * 2 ^ k := Nat.mul_le_mul_right _ hb1
      _ = 2 ^ k := one_mul _
    have ih2 := ih (k + 1) hbt
    have hpow : 2 ^ (k + 1) = 2 ^ k + 2 ^ k := by ring
    have hlen : k + (b :: t).length = (k + 1) + t.length := by
      simp [List.length_cons]; ring
    calc bitsVal k (b :: t) + 2 ^ k = b * 2 ^ k + bitsVal (k + 1) t + 2 ^ k := rfl
    _ ≤ 2 ^ k + bitsVal (k + 1) t + 2 ^ k := by omega
    _ = bitsVal (k + 1) t + 2 ^ (k + 1) := by omega
    _ ≤ 2 ^ ((k + 1) + t.length) := ih2
    _ = 2 ^ (k + (b :: t).length) := by rw [hlen]

/-- A list of binary digits of length L decodes to a value below 2 ^ L. -/
theorem bin_to_dec_lt (l : List ℕ) (hb : ∀ b ∈ l, b ≤ 1) :
    bin_to_dec l < 2 ^ l.length := by
  have h := bitsVal_bound l 0 hb
  rw [Nat.zero_add] at h
  have h0 : (2 : ℕ) ^ 0 = 1 := by norm_num
  rw [bin_to_dec_eq_bitsVal]
  omega

theorem binDigitsRevFuel_mem_le_one :
    ∀ fuel n b : ℕ, b ∈ binDigitsRevFuel fuel n → b ≤ 1 := by
  intro fuel
  induction fuel with
  | zero => intro n b hb; simp [binDigitsRevFuel] at hb
  | succ f ih =>
    intro n b hb
    by_cases h : n = 0
    · simp [binDigitsRevFuel, h] at hb
    · simp only [binDigitsRevFuel, if_neg h, List.mem_cons] at hb
      rcases hb with hb | hb
      · subst hb; omega
      · exact ih _ _ hb

theorem pyBin_mem_le_one (n b : ℕ) (hb : b ∈ pyBin n) : b ≤ 1 := by
  unfold pyBin at hb
  by_cases h : n = 0
  · simp [h] at hb; omega
  · simp only [if_neg h, List.mem_reverse] at hb
    exact binDigitsRevFuel_mem_le_one n n b hb

theorem dec_to_bin_mem_le_one (n places b : ℕ) (hb : b ∈ dec_to_bin n places) : b ≤ 1 := by
  unfold dec_to_bin at hb
  rcases List.mem_append.1 hb with h | h
  · exact pyBin_mem_le_one n b h
  · have := List.eq_of_mem_replicate h
    omega

theorem binDigitsRevFuel_length_le :
    ∀ fuel k n : ℕ, n ≤ fuel → n < 2 ^ k → (binDigitsRevFuel fuel n).length ≤ k := by
  intro fuel
  induction fuel with
  | zero => intro k n _ _; simp [binDigitsRevFuel]
  | succ f ih =>
    intro k n hnf hnk
    by_cases h : n = 0
    · simp [binDigitsRevFuel, h]
    · cases k with
      | zero => simp at hnk; omega
      | succ k2 =>
        have hdiv : n / 2 ≤ f := by omega
        have hlt : n / 2 < 2 ^ k2 := by
          have : n < 2 * 2 ^ k2 := by
            have hp : (2 : ℕ) ^ (k2 + 1) = 2 * 2 ^ k2 := by ring
            omega
          omega
        simp only [binDigitsRevFuel, if_neg h, List.length_cons]
        have := ih k2 (n / 2) hdiv hlt
        omega

theorem pyBin_length_le (n k : ℕ) (h1 : 1 ≤ k) (h2 : n < 2 ^ k) :
    (pyBin n).length ≤ k := by
  unfold pyBin
  by_cases h : n = 0
  · simp [h]; omega
  · simp only [if_neg h, List.length_reverse]
    exact binDigitsRevFuel_length_le n k n le_rfl h2

theorem dec_to_bin_length (n places : ℕ) :
    (dec_to_bin n places).length = (pyBin n).length + (places - (pyBin n).length) := by
  simp [dec_to_bin]

/-- The place count is always a lower bound on the encoded length. -/
theorem le_dec_to_bin_length (n places : ℕ) : places ≤ (dec_to_bin n places).length := by
  rw [dec_to_bin_length]; omega

/-- For values below 2 ^ places the encoded length is exactly places. -/
theorem dec_to_bin_length_eq (n places : ℕ) (h1 : 1 ≤ places) (h2 : n < 2 ^ places) :
    (dec_to_bin n places).length = places := by
  have := pyBin_length_le n places h1 h2
  rw [dec_to_bin_length]; omega

/-! ## Helper lemmas about the evolver -/

namespace NumberEvolver

theorem insertLe_perm (le : ℕ → ℕ → Bool) (x : ℕ) :
    ∀ l : List ℕ, (insertLe le x l).Perm (x :: l) := by
  intro l
  induction l with
  | nil => simp [insertLe]
  | cons y t ih =>
    unfold insertLe
    by_cases h : le x y
    · simp [h]
    · simp only [if_neg h]
      exact (ih.cons y).trans (List.Perm.swap x y t)

theorem sortLe_perm (le : ℕ → ℕ → Bool) : ∀ l : List ℕ, (sortLe le l).Perm l := by
  intro l
  induction l with
  | nil => simp [sortLe]
  | cons x t ih =>
    exact (insertLe_perm le x (sortLe le t)).trans (ih.cons x)

theorem sortPop_perm (best : Option ℕ) (pop : List ℕ) : (sortPop best pop).Perm pop :=
  sortLe_perm _ pop

theorem truncPool_subset (p : Params) (s : EvState) :
    ∀ x ∈ truncPool p s, x ∈ s.population := by
  intro x hx
  have hx2 : x ∈ sortPop s.best s.population := List.take_subset _ _ hx
  exact (sortPop_perm s.best s.population).mem_iff.1 hx2

theorem truncPool_length (p : Params) (s : EvState) :
    (truncPool p s).length = min (max (p.population_size / 4) 2) s.population.length := by
  unfold truncPool
  rw [List.length_take, (sortPop_perm s.best s.population).length_eq]

theorem getD_le_one (l : List ℕ) (i : ℕ) (h : ∀ b ∈ l, b ≤ 1) : l.getD i 0 ≤ 1 := by
  rcases Nat.lt_or_ge i l.length with hi | hi
  · rw [List.getD_eq_getElem l 0 hi]
    exact h _ (List.getElem_mem hi)
  · rw [List.getD_eq_default l 0 hi]
    omega

theorem getD_lt_of_mem_lt (l : List ℕ) (i c : ℕ) (hc : 0 < c)
    (h : ∀ b ∈ l, b < c) : l.getD i 0 < c := by
  rcases Nat.lt_or_ge i l.length with hi | hi
  · rw [List.getD_eq_getElem l 0 hi]
    exact h _ (List.getElem_mem hi)
  · rw [List.getD_eq_default l 0 hi]
    omega

theorem crossSwap_length (male female : List ℕ) (cross : ℕ) :
    ∀ cnt : ℕ, (crossSwap male female cross cnt).1.length = male.length ∧
      (crossSwap male female cross cnt).2.length = female.length := by
  intro cnt
  induction cnt with
  | zero => simp [crossSwap]
  | succ j ih =>
    simp only [crossSwap, List.length_set]
    exact ih

theorem crossSwap_mem_le_one (male female : List ℕ) (cross : ℕ)
    (hm : ∀ b ∈ male, b ≤ 1) (hf : ∀ b ∈ female, b ≤ 1) :
    ∀ cnt : ℕ, (∀ b ∈ (crossSwap male female cross cnt).1, b ≤ 1) ∧
      (∀ b ∈ (crossSwap male female cross cnt).2, b ≤ 1) := by
  intro cnt
  induction cnt with
  | zero => exact ⟨hm, hf⟩
  | succ j ih =>
    obtain ⟨ih1, ih2⟩ := ih
    constructor
    · intro b hb
      rcases List.mem_or_eq_of_mem_set hb with h | h
      · exact ih1 b h
      · subst h; exact getD_le_one _ _ ih2
    · intro b hb
      rcases List.mem_or_eq_of_mem_set hb with h | h
      · exact ih2 b h
      · subst h; exact getD_le_one _ _ ih1

theorem mutate_length (bits : List ℕ) (mid : ℕ) : (mutate bits mid).length = bits.length := by
  simp [mutate]

theorem mutate_mem_le_one (bits : List ℕ) (mid : ℕ) (h : ∀ b ∈ bits, b ≤ 1) :
    ∀ b ∈ mutate bits mid, b ≤ 1 := by
  intro b hb
  rcases List.mem_or_eq_of_mem_set hb with h2 | h2
  · exact h b h2
  · omega

theorem childSel_cases (best : Option ℕ) (male female : ℕ) :
    childSel best male female = male ∨ childSel best male female = female := by
  unfold childSel
  by_cases h : ltDistToBest best female male
  · simp [h]
  · simp [h]

/-- Any child produced by one mating pass from a pool whose members are below
2 ^ max_bits is itself below 2 ^ max_bits. -/
theorem mateStep_child_lt (p : Params) (best : Option ℕ) (st : List ℕ × List ℕ) (m : Mating)
    (hbits : 1 ≤ p.max_bits) (hpool : ∀ x ∈ m.shuffled, x < 2 ^ p.max_bits) :
    ∀ x ∈ (mateStep p best st m).2, x ∈ st.2 ∨ x < 2 ^ p.max_bits := by
  intro x hx
  have hpos : 0 < 2 ^ p.max_bits := Nat.pos_pow_of_pos _ (by norm_num)
  have h0 : m.shuffled.getD 0 0 < 2 ^ p.max_bits := getD_lt_of_mem_lt _ _ _ hpos hpool
  have h1 : m.shuffled.getD 1 0 < 2 ^ p.max_bits := getD_lt_of_mem_lt _ _ _ hpos hpool
  unfold mateStep at hx
  rcases List.mem_append.1 hx with h | h
  · exact Or.inl h
  · right
    have hxeq := List.mem_singleton.1 h
    set male := dec_to_bin (m.shuffled.getD 0 0) p.max_bits with hmale
    set female := dec_to_bin (m.shuffled.getD 1 0) p.max_bits with hfemale
    have hml : male.length = p.max_bits := dec_to_bin_length_eq _ _ hbits h0
    have hfl : female.length = p.max_bits := dec_to_bin_length_eq _ _ hbits h1
    have hm1 : ∀ b ∈ male, b ≤ 1 := fun b hb => dec_to_bin_mem_le_one _ _ b hb
    have hf1 : ∀ b ∈ female, b ≤ 1 := fun b hb => dec_to_bin_mem_le_one _ _ b hb
    obtain ⟨hc1, hc2⟩ := crossSwap_mem_le_one male female m.cross hm1 hf1 p.cross_range.toNat
    obtain ⟨hl1, hl2⟩ := crossSwap_length male female m.cross p.cross_range.toNat
    have hmu1 := mutate_mem_le_one _ m.mutation_id hc1
    have hmu2 := mutate_mem_le_one _ m.mutation_id hc2
    have hb1 : bin_to_dec (mutate (crossSwap male female m.cross p.cross_range.toNat).1
        m.mutation_id) < 2 ^ p.max_bits := by
      have := bin_to_dec_lt _ hmu1
      rwa [mutate_length, hl1, hml] at this
    have hb2 : bin_to_dec (mutate (crossSwap male female m.cross p.cross_range.toNat).2
        m.mutation_id) < 2 ^ p.max_bits := by
      have := bin_to_dec_lt _ hmu2
      rwa [mutate_length, hl2, hfl] at this
    rcases childSel_cases best
        (bin_to_dec (mutate (crossSwap male female m.cross p.cross_range.toNat).1 m.mutation_id))
        (bin_to_dec (mutate (crossSwap male female m.cross p.cross_range.toNat).2
          m.mutation_id)) with h2 | h2 <;> rw [hxeq, h2]
    · exact hb1
    · exact hb2

theorem mateStep_snd (p : Params) (best : Option ℕ) (st : List ℕ × List ℕ) (m : Mating) :
    (mateStep p best st m).2.length = st.2.length + 1 := by
  simp [mateStep]

/-- The mating loop appends exactly one child per pass. -/
theorem foldl_mateStep_length (p : Params) (best : Option ℕ) :
    ∀ (rs : List Mating) (st : List ℕ × List ℕ),
      (rs.foldl (mateStep p best) st).2.length = st.2.length + rs.length := by
  intro rs
  induction rs with
  | nil => intro st; simp
  | cons m rest ih =>
    intro st
    simp only [List.foldl_cons, List.length_cons, ih, mateStep_snd]
    omega

/-- All values reached by the mating fold stay below 2 ^ max_bits when the
pool members do, the accumulated children do and the shuffles are valid. -/
theorem foldl_mateStep_bounded (p : Params) (best : Option ℕ) (hbits : 1 ≤ p.max_bits) :
    ∀ (rs : List Mating) (pool acc : List ℕ),
      validMatings p pool rs →
      (∀ x ∈ pool, x < 2 ^ p.max_bits) →
      (∀ x ∈ acc, x < 2 ^ p.max_bits) →
      ∀ x ∈ (rs.foldl (mateStep p best) (pool, acc)).2, x < 2 ^ p.max_bits := by
  intro rs
  induction rs with
  | nil => intro pool acc _ _ hacc x hx; exact hacc x hx
  | cons m rest ih =>
    intro pool acc hv hpool hacc x hx
    obtain ⟨hperm, _, _, hrest⟩ := hv
    have hshuf : ∀ y ∈ m.shuffled, y < 2 ^ p.max_bits := fun y hy =>
      hpool y (hperm.mem_iff.1 hy)
    have hstep : mateStep p best (pool, acc) m = (m.shuffled, (mateStep p best (pool, acc) m).2) := by
      unfold mateStep; rfl
    have hacc2 : ∀ y ∈ (mateStep p best (pool, acc) m).2, y < 2 ^ p.max_bits := by
      intro y hy
      rcases mateStep_child_lt p best (pool, acc) m hbits hshuf y hy with h | h
      · exact hacc y h
      · exact h
    simp only [List.foldl_cons] at hx
    rw [hstep] at hx
    exact ih m.shuffled _ hrest hshuf hacc2 x hx

/-- The rescan keeps or strictly improves the distance of the best estimate. -/
theorem rescanStep_le (desired : ℕ) (best : Option ℕ) (num : ℕ) :
    best_distance desired (rescanStep desired best num) ≤ best_distance desired best := by
  unfold rescanStep leBestDiff
  cases best with
  | none => simp [best_distance]
  | some b =>
    by_cases h : absDiff desired b ≤ absDiff desired num
    · simp [h]
    · simp [h, best_distance]
      omega

theorem rescan_le (desired : ℕ) :
    ∀ (pop : List ℕ) (best : Option ℕ),
      best_distance desired (rescan desired best pop) ≤ best_distance desired best := by
  intro pop
  induction pop with
  | nil => intro best; simp [rescan]
  | cons num t ih =>
    intro best
    have h1 := ih (rescanStep desired best num)
    have h2 := rescanStep_le desired best num
    calc best_distance desired (rescan desired best (num :: t))
        = best_distance desired (rescan desired (rescanStep desired best num) t) := rfl
    _ ≤ best_distance desired (rescanStep desired best num) := h1
    _ ≤ best_distance desired best := h2

end NumberEvolver

/-- Constant starting-population oracle used in concrete instantiations. -/
def zeroOracle : ℕ → ℕ := fun _ => 0

/-! ## The claims -/

/-- C1: the claim says that for every n in [0, max_number] the round trip
bin_to_dec (dec_to_bin n max_bits) returns n.  The code violates it: with
the width max_bits = 8 used for the default max_number = 255, the value 2
encodes to [1, 0, 0, 0, 0, 0, 0, 0] (bin gives the string 10 and ljust pads
zeros on the right) and decodes back to 1, because bin_to_dec weighs the
first list element as the least significant bit.  The encoder and decoder
disagree about endianness, so the pair is not mutually inverse, contradicting
the documented intent of the conversion pair and the spec property. -/
theorem C1_roundtrip_fails_at_two :
    bin_to_dec (dec_to_bin 2 8) = 1 ∧ (1 : ℕ) ≠ 2 := by decide

/-- C2: the claim says dec_to_bin 5 4 = [0, 1, 0, 1] and
bin_to_dec [0, 1, 0, 1] = 5.  The code returns [1, 0, 1, 0] for the encoding
(big-endian digits of bin(5) padded with zeros on the right instead of the
left) and decodes [0, 1, 0, 1] to 10 (reading the head of the list as the
least significant bit). -/
theorem C2_scenario_values_differ :
    dec_to_bin 5 4 = [1, 0, 1, 0] ∧ dec_to_bin 5 4 ≠ [0, 1, 0, 1] ∧
      bin_to_dec [0, 1, 0, 1] = 10 ∧ (10 : ℕ) ≠ 5 := by decide

/-- C3 counterexample: with target 5, current best 3 and the population
member 7, the distances tie at 2 and the member differs from the best, yet
the rescan keeps 3 (the comparison best_diff <= num_diff in the code rejects
ties), refuting the claim that ties favor the newer candidate. -/
theorem C3_tie_keeps_current_best :
    absDiff 5 7 = absDiff 5 3 ∧ (7 : ℕ) ≠ 3 ∧
      NumberEvolver.rescan 5 (some 3) [7] = some 3 ∧
      NumberEvolver.rescan 5 (some 3) [7] ≠ some 7 := by decide

/-- C3 amended: in the per-generation rescan the best estimate is replaced
by a population member exactly when that member is STRICTLY closer to the
target than the current best; on a tie the current best is kept, and every
candidate at equal or greater distance is rejected (the infinity sentinel
counts as farther than every member). -/
theorem C3_replaced_iff_strictly_closer (desired : ℕ) (best : Option ℕ) (num : ℕ) :
    NumberEvolver.rescanStep desired best num =
      if NumberEvolver.best_distance desired (some num) <
          NumberEvolver.best_distance desired best
      then some num else best := by
  cases best with
  | none =>
    simp [NumberEvolver.rescanStep, NumberEvolver.leBestDiff, NumberEvolver.best_distance]
  | some b =>
    simp only [NumberEvolver.rescanStep, NumberEvolver.leBestDiff,
      NumberEvolver.best_distance, decide_eq_true_eq, Nat.cast_lt]
    by_cases h : absDiff desired b ≤ absDiff desired num
    · rw [if_pos h, if_neg (not_lt.2 h)]
    · rw [if_neg h, if_pos (not_le.1 h)]

/-- C4 counterexample: with max_number = 4 the construction gives
max_bits = 3, and a fully valid generation step started from the in-range
population [4, 4] (with best estimate 0 and target 4) produces the member 5,
which lies outside [0, max_number]: mutating bit 2 of the encoding
[1, 0, 0] of 4 gives [1, 0, 1], which decodes to 5.  So the claimed range
invariant [0, max_number] fails for general max_number. -/
theorem C4_member_exceeds_max_number :
    NumberEvolver.validMatings (NumberEvolver.initParams 4 2 4 0)
        (NumberEvolver.truncPool (NumberEvolver.initParams 4 2 4 0) ⟨[4, 4], some 0, 0, []⟩)
        [⟨[4, 4], 0, 2⟩, ⟨[4, 4], 0, 2⟩] ∧
      (∀ x ∈ ([4, 4] : List ℕ), x ≤ 4) ∧
      5 ∈ (NumberEvolver.evolveStep (NumberEvolver.initParams 4 2 4 0)
        ⟨[4, 4], some 0, 0, []⟩ [⟨[4, 4], 0, 2⟩, ⟨[4, 4], 0, 2⟩]).population ∧
      ¬ (5 : ℕ) ≤ 4 := by
  refine ⟨⟨List.Perm.refl _, by decide, by decide, List.Perm.refl _, by decide, by decide,
    trivial⟩, by decide, by decide, by decide⟩

/-- C4 amended: at every generation every member of the population is an
integer in [0, 2 ^ max_bits - 1] (with max_bits = floor(log2 max_number) + 1);
this interval coincides with [0, max_number] exactly when max_number + 1 is a
power of two, as with the default max_number = 255.  Formally: a generation
step started from a population inside that interval, with a valid batch of
random data, stays inside it. -/
theorem C4_members_lt_two_pow_max_bits (p : Params) (s : EvState) (rs : List Mating)
    (hbits : 1 ≤ p.max_bits)
    (hpop : ∀ x ∈ s.population, x < 2 ^ p.max_bits)
    (hv : NumberEvolver.validMatings p (NumberEvolver.truncPool p s) rs) :
    ∀ x ∈ (NumberEvolver.evolveStep p s rs).population, x < 2 ^ p.max_bits := by
  intro x hx
  have hpool : ∀ y ∈ NumberEvolver.truncPool p s, y < 2 ^ p.max_bits := fun y hy =>
    hpop y (NumberEvolver.truncPool_subset p s y hy)
  have hdef : (NumberEvolver.evolveStep p s rs).population =
      (rs.foldl (NumberEvolver.mateStep p s.best) (NumberEvolver.truncPool p s, [])).2 := rfl
  rw [hdef] at hx
  exact NumberEvolver.foldl_mateStep_bounded p s.best hbits rs _ [] hv hpool (by simp) x hx

/-- C4 witness: the amended bound evaluated on the concrete generation of the
counterexample, where the produced member 5 is indeed below 2 ^ 3. -/
theorem C4_members_lt_two_pow_max_bits_witness :
    (5 : ℕ) < 2 ^ (NumberEvolver.initParams 4 2 4 0).max_bits :=
  C4_members_lt_two_pow_max_bits (NumberEvolver.initParams 4 2 4 0)
    ⟨[4, 4], some 0, 0, []⟩ [⟨[4, 4], 0, 2⟩, ⟨[4, 4], 0, 2⟩]
    (by decide) (by decide)
    ⟨List.Perm.refl _, by decide, by decide, List.Perm.refl _, by decide, by decide, trivial⟩
    5 (by decide)

/-- C5: the absolute distance of the best estimate to the target never grows
across a generation: for any state and any random data, the distance after
one body of the evolution loop is at most the distance before it, the
initial infinity sentinel counting as infinite distance. -/
theorem C5_best_distance_monotone (p : Params) (s : EvState) (rs : List Mating) :
    NumberEvolver.best_distance p.desired_number (NumberEvolver.evolveStep p s rs).best ≤
      NumberEvolver.best_distance p.desired_number s.best := by
  have hdef : (NumberEvolver.evolveStep p s rs).best =
      NumberEvolver.rescan p.desired_number s.best
        ((rs.foldl (NumberEvolver.mateStep p s.best) (NumberEvolver.truncPool p s, [])).2) := rfl
  rw [hdef]
  exact NumberEvolver.rescan_le p.desired_number _ s.best

/-- C6: after every completed generation the population has exactly the
clamped population_size members, which is at least 2: the mating loop runs
population_size times and each pass appends exactly one surviving child to
the fresh new population. -/
theorem C6_population_size_invariant (d ps mn cr : ℤ) (rinit : ℕ → ℕ) (p : Params)
    (s0 : EvState) (hinit : NumberEvolver.init d ps mn cr rinit = some (p, s0))
    (s : EvState) (rs : List Mating) (hlen : rs.length = p.population_size) :
    (NumberEvolver.evolveStep p s rs).population.length = p.population_size ∧
      2 ≤ p.population_size := by
  constructor
  · have hdef : (NumberEvolver.evolveStep p s rs).population =
        (rs.foldl (NumberEvolver.mateStep p s.best) (NumberEvolver.truncPool p s, [])).2 := rfl
    rw [hdef, NumberEvolver.foldl_mateStep_length]
    simpa using hlen
  · unfold NumberEvolver.init at hinit
    by_cases h : mn < 1
    · simp [h] at hinit
    · simp only [if_neg h, Option.some.injEq, Prod.mk.injEq] at hinit
      have hp : p = NumberEvolver.initParams d ps mn cr := hinit.1.symm
      rw [hp]
      show 2 ≤ (max ps 2).toNat
      omega

/-- C6 witness: one concrete generation with the clamped parameters of
init 1 2 2 0 and two matings yields a population of the configured size 2. -/
theorem C6_population_size_invariant_witness :
    (NumberEvolver.evolveStep (NumberEvolver.initParams 1 2 2 0) ⟨[], none, 0, []⟩
        [⟨[], 0, 0⟩, ⟨[], 0, 0⟩]).population.length =
      (NumberEvolver.initParams 1 2 2 0).population_size ∧
      2 ≤ (NumberEvolver.initParams 1 2 2 0).population_size :=
  C6_population_size_invariant 1 2 2 0 zeroOracle (NumberEvolver.initParams 1 2 2 0)
    ⟨[0, 0], none, 0, []⟩ rfl ⟨[], none, 0, []⟩ [⟨[], 0, 0⟩, ⟨[], 0, 0⟩] (by decide)

/-- C7: the while loop of the evolution process steps only while the best
estimate differs from the desired number, so a state whose best estimate
equals the target has no successor and the history log never grows again;
and every step that does happen appends exactly one generation record. -/
theorem C7_guard_and_single_log_append (p : Params) (s s2 : EvState)
    (h : NumberEvolver.stepRel p s s2) :
    s.best ≠ some p.desired_number ∧
      s2.history = s.history ++ [⟨s.iteration + 1, s2.population, s2.best⟩] := by
  obtain ⟨hg, rs, _, _, hstep⟩ := h
  refine ⟨hg, ?_⟩
  subst hstep
  rfl

/-- C7 witness: a concrete step of the relation from the initial state of
init 1 2 2 0, showing the guard held and the log grew by one record. -/
theorem C7_guard_and_single_log_append_witness :
    (⟨[0, 0], none, 0, []⟩ : EvState).best ≠
        some (NumberEvolver.initParams 1 2 2 0).desired_number ∧
      (NumberEvolver.evolveStep (NumberEvolver.initParams 1 2 2 0) ⟨[0, 0], none, 0, []⟩
          [⟨[0, 0], 0, 0⟩, ⟨[0, 0], 0, 0⟩]).history =
        (⟨[0, 0], none, 0, []⟩ : EvState).history ++
          [⟨(⟨[0, 0], none, 0, []⟩ : EvState).iteration + 1,
            (NumberEvolver.evolveStep (NumberEvolver.initParams 1 2 2 0)
              ⟨[0, 0], none, 0, []⟩ [⟨[0, 0], 0, 0⟩, ⟨[0, 0], 0, 0⟩]).population,
            (NumberEvolver.evolveStep (NumberEvolver.initParams 1 2 2 0)
              ⟨[0, 0], none, 0, []⟩ [⟨[0, 0], 0, 0⟩, ⟨[0, 0], 0, 0⟩]).best⟩] :=
  C7_guard_and_single_log_append (NumberEvolver.initParams 1 2 2 0)
    ⟨[0, 0], none, 0, []⟩ _
    ⟨by decide, [⟨[0, 0], 0, 0⟩, ⟨[0, 0], 0, 0⟩],
      ⟨List.Perm.refl _, by decide, by decide, List.Perm.refl _, by decide, by decide, trivial⟩,
      by decide, rfl⟩

/-- C8 counterexample: the claim quantifies over every combination of input
parameters, but with max_number = 0 the constructor does not clamp and
return: the call math.log(max_number, 2) raises ValueError (rendered as none
in the embedding), so not every input is silently accepted. -/
theorem C8_zero_max_number_errors : NumberEvolver.init 5 8 0 1 zeroOracle = none := rfl

/-- C8 amended: for every max_number at least 1 (as in the only call site,
which passes 255), construction succeeds for all remaining inputs and
silently clamps them: desired_number into [0, max_number], population_size
to at least 2, and cross_range to at most half the bit width. -/
theorem C8_clamped_construction (d ps mn cr : ℤ) (rinit : ℕ → ℕ) (h : 1 ≤ mn) :
    ∃ p s0, NumberEvolver.init d ps mn cr rinit = some (p, s0) ∧
      (p.desired_number : ℤ) ≤ mn ∧ 2 ≤ p.population_size ∧
      p.cross_range ≤ (p.max_bits : ℤ) / 2 := by
  refine ⟨NumberEvolver.initParams d ps mn cr,
    { population := (List.range (max ps 2).toNat).map rinit
      best := none, iteration := 0, history := [] }, ?_, ?_, ?_, ?_⟩
  · unfold NumberEvolver.init
    rw [if_neg (by omega)]
  · show ((min (max 0 d) mn).toNat : ℤ) ≤ mn
    omega
  · show 2 ≤ (max ps 2).toNat
    omega
  · exact min_le_left _ _

/-- C8 witness: the clamped construction evaluated at the default call
NumberEvolver(5, 8, 255, 1). -/
theorem C8_clamped_construction_witness :
    ∃ p s0, NumberEvolver.init 5 8 255 1 zeroOracle = some (p, s0) ∧
      (p.desired_number : ℤ) ≤ 255 ∧ 2 ≤ p.population_size ∧
      p.cross_range ≤ (p.max_bits : ℤ) / 2 :=
  C8_clamped_construction 5 8 255 1 zeroOracle (by norm_num)

/-- C9 counterexample: calc_level 255 256 (200, 600) is exactly 3225 / 16,
which is 201.5625 and more than 1 above the claimed approximate value
200.39, so the second scenario value of the claim is wrong. -/
theorem C9_level_at_255_not_near_200_39 :
    calc_level 255 256 (200, 600) = 3225 / 16 ∧
      (1 : ℚ) ≤ 3225 / 16 - 20039 / 100 := by
  constructor
  · norm_num [calc_level]
  · norm_num

/-- C9 amended: calc_level 0 256 (200, 600) = 600 as claimed, and
calc_level 255 256 (200, 600) equals 201.5625 (exactly 3225 / 16) rather
than approximately 200.39. -/
theorem C9_scenario_values :
    calc_level 0 256 (200, 600) = 600 ∧
      calc_level 255 256 (200, 600) = 3225 / 16 ∧ (3225 : ℚ) / 16 = 201.5625 := by
  refine ⟨by norm_num [calc_level], by norm_num [calc_level], by norm_num⟩

/-- C10: every list access of a generation step is in bounds: the truncated
breeding pool keeps at least 2 members whenever the incoming population has
at least 2, any shuffle of it keeps at least 2 members (so positions 0 and 1
are safe), the bit list of dec_to_bin with places = max_bits has length at
least max_bits, every crossover index cross + j with cross below
max_bits / 2 and j below the clamped cross_range stays below max_bits, and
every mutation index below max_bits is below the bit list length. -/
theorem C10_generation_accesses_in_bounds (p : Params) (s : EvState)
    (l : List ℕ) (n cross j mid : ℕ)
    (hshuf : l.Perm (NumberEvolver.truncPool p s))
    (hpop2 : 2 ≤ s.population.length)
    (hcross : cross < p.max_bits / 2)
    (hj : j < p.cross_range.toNat)
    (hcr : p.cross_range ≤ (p.max_bits : ℤ) / 2)
    (hmid : mid < p.max_bits) :
    2 ≤ (NumberEvolver.truncPool p s).length ∧ 2 ≤ l.length ∧
      p.max_bits ≤ (dec_to_bin n p.max_bits).length ∧
      cross + j < p.max_bits ∧
      mid < (dec_to_bin n p.max_bits).length := by
  have hlen := NumberEvolver.truncPool_length p s
  have h1 : 2 ≤ (NumberEvolver.truncPool p s).length := by omega
  have h2 : p.max_bits ≤ (dec_to_bin n p.max_bits).length := le_dec_to_bin_length n _
  refine ⟨h1, ?_, h2, ?_, ?_⟩
  · rw [hshuf.length_eq]; exact h1
  · omega
  · omega

/-- C10 witness: the bounds evaluated with the clamped parameters of
init 1 2 255 4 (max_bits 8, cross_range 4), population [0, 0], crossover
point 3, block offset 3 and mutation index 7. -/
theorem C10_generation_accesses_in_bounds_witness :
    2 ≤ (NumberEvolver.truncPool (NumberEvolver.initParams 1 2 255 4)
        ⟨[0, 0], none, 0, []⟩).length ∧ 2 ≤ ([0, 0] : List ℕ).length ∧
      (NumberEvolver.initParams 1 2 255 4).max_bits ≤
        (dec_to_bin 0 (NumberEvolver.initParams 1 2 255 4).max_bits).length ∧
      3 + 3 < (NumberEvolver.initParams 1 2 255 4).max_bits ∧
      7 < (dec_to_bin 0 (NumberEvolver.initParams 1 2 255 4).max_bits).length :=
  C10_generation_accesses_in_bounds (NumberEvolver.initParams 1 2 255 4)
    ⟨[0, 0], none, 0, []⟩ [0, 0] 0 3 3 7 (List.Perm.refl _)
    (by decide) (by decide) (by decide) (by decide) (by decide)
